import Mathlib

/-!
Verification development for the core debugger of the BugStalker repository.

The Rust sources under `src/debugger` are shallowly embedded: machine
integers (`usize`, `u64`, `i64`, ...) become `Nat` or `Int` with explicit
wrap-around (`% 2 ^ 64`) where overflow matters, hash maps become functions
into `Option`, fallible operations return `Option` or `Except`, and the
external collaborators (ptrace, the DWARF facade, the unwinder) become
explicit parameters.  Components of the repository that are referenced by
the sources but whose files are not part of the source set (the literal
type of the command parser and the thread registry) are modelled from the
specification; each such definition carries a doc comment saying so.
-/

namespace BugStalker

/-- Number of values of a 64-bit machine word, the modulus of `usize`
arithmetic on the reference x86-64 configuration. -/
def WORD : Nat := 2 ^ 64

/-- Embeds `RelocatedAddress(pub usize)` from `src/debugger/mod.rs`:
an address as it appears in the running process. -/
structure RelocatedAddress where
  val : Nat
deriving DecidableEq

/-- Embeds `GlobalAddress(pub usize)` from `src/debugger/mod.rs`:
an address as it appears in the on-disk object. -/
structure GlobalAddress where
  val : Nat
deriving DecidableEq

/-- Embeds `GlobalAddress::relocate`: `RelocatedAddress(self.0 + offset)`,
with the wrap-around of `usize` addition made explicit. -/
def GlobalAddress.relocate (g : GlobalAddress) (offset : Nat) : RelocatedAddress :=
  ⟨(g.val + offset) % WORD⟩

/-- Embeds `RelocatedAddress::into_global`: `GlobalAddress(self.0 - offset)`,
with the wrap-around of `usize` subtraction made explicit
(`a - b` on `usize` is `(a + 2^64 - b) % 2^64` for `b < 2^64`). -/
def RelocatedAddress.into_global (r : RelocatedAddress) (offset : Nat) : GlobalAddress :=
  ⟨(r.val + (WORD - offset % WORD)) % WORD⟩

/-- Embeds `PCValue` from `src/debugger/mod.rs`: a breakpoint key is either
a relocated or a global address. -/
inductive PCValue where
  | Relocated (addr : RelocatedAddress)
  | Global (addr : GlobalAddress)
deriving DecidableEq

/-- Modelled from the spec: the breakpoint record (its file
`src/debugger/breakpoint.rs` is not part of the source set).  Fields per
the data model: address (either kind), owning process id, enabled flag;
created disabled.  The stashed original instruction byte lives in debugee
memory, which is external to the table reasoning. -/
structure Breakpoint where
  addr : PCValue
  pid : Nat
  enabled : Bool
deriving DecidableEq

/-- Modelled from the spec: `Breakpoint::new` creates a disabled record. -/
def Breakpoint.new (addr : PCValue) (pid : Nat) : Breakpoint :=
  ⟨addr, pid, false⟩

/-- Modelled from the spec: `enable` writes the trap opcode (external) and
sets the enabled flag; idempotent on the flag. -/
def Breakpoint.enable (b : Breakpoint) : Breakpoint :=
  { b with enabled := true }

/-- The breakpoint table `HashMap<PCValue, Breakpoint>` of the `Debugger`
struct, embedded as a function into `Option`. -/
def BreakpointTable : Type := PCValue → Option Breakpoint

/-- Embeds the map mutation of `Debugger::set_breakpoint`: a fresh record
is created, enabled when the debugee is in progress, and inserted at the
key `addr`. -/
def set_breakpoint_table (bps : BreakpointTable) (pid : Nat) (in_progress : Bool)
    (addr : PCValue) : BreakpointTable :=
  fun k =>
    if k = addr then
      some (if in_progress then (Breakpoint.new addr pid).enable else Breakpoint.new addr pid)
    else bps k

/-- Embeds the map mutation of `Debugger::remove_breakpoint`: the record at
the key is removed (and disabled externally when it was enabled). -/
def remove_breakpoint_table (bps : BreakpointTable) (addr : PCValue) : BreakpointTable :=
  fun k => if k = addr then none else bps k

/-- Embeds the `DebugeeEvent::DebugeeStart` arm of
`Debugger::continue_execution` before enabling: every record keyed by a
global address `g` is taken out of the table and re-inserted under the key
`Relocated (g.relocate offset)` with its `addr` field updated; a
pre-existing record under that relocated key is overwritten.  The
functional embedding looks up the unique global preimage of a relocated
key. -/
def debugee_start_rekey (bps : BreakpointTable) (offset : Nat) : BreakpointTable :=
  fun k =>
    match k with
    | .Global _ => none
    | .Relocated r =>
      match bps (.Global (r.into_global offset)) with
      | some b =>
        if (r.into_global offset).relocate offset = r then
          some { b with addr := .Relocated r }
        else bps (.Relocated r)
      | none => bps (.Relocated r)

/-- Embeds the whole `DebugeeStart` arm: rekey every global record, then
enable every record in the table. -/
def debugee_start_transition (bps : BreakpointTable) (offset : Nat) : BreakpointTable :=
  fun k => (debugee_start_rekey bps offset k).map Breakpoint.enable

/-- Embeds `DebugeeEvent` from `src/debugger/debugee/flow.rs` (variants and
payloads as consumed by `Debugger::continue_execution` in
`src/debugger/mod.rs`). -/
inductive DebugeeEvent where
  | DebugeeExit (code : Int)
  | DebugeeStart
  | AtEntryPoint (tid : Nat)
  | TrapTrace
  | NoSuchProcess (tid : Nat)
  | Breakpoint (tid : Nat) (pc : RelocatedAddress)
  | OsSignal (info : Int) (tid : Nat)
deriving DecidableEq

/-- Embeds the effect of the `Debugger::continue_execution` event loop on
the breakpoint table, over the stream of events the control flow yields:
only the `DebugeeStart` arm mutates the table; `AtEntryPoint` loops; every
other event breaks out of the loop. -/
def continue_execution_table (offset : Nat) :
    List DebugeeEvent → BreakpointTable → BreakpointTable
  | [], bps => bps
  | e :: rest, bps =>
    match e with
    | .DebugeeStart => continue_execution_table offset rest (debugee_start_transition bps offset)
    | .AtEntryPoint _ => continue_execution_table offset rest bps
    | _ => bps

/-- Embeds the transient-breakpoint planting loop of `Debugger::step_over`:
walk the line entries of the containing function ranges and collect the
relocated addresses of the statement lines that differ from the current
statement address and hold no breakpoint yet.  The DWARF walk itself is
external; its line entries arrive as `(address, is_stmt)` pairs. -/
def step_over_plant (bps : BreakpointTable) (offset : Nat)
    (lines : List (GlobalAddress × Bool)) (cur : GlobalAddress) : List RelocatedAddress :=
  (lines.filter (fun l =>
      l.2 && !(l.1 == cur) && (bps (.Relocated (l.1.relocate offset))).isNone)).map
    (fun l => l.1.relocate offset)

/-- Folds `Debugger::set_breakpoint` over a list of relocated addresses
(the `try_for_each` over `breakpoints_range`). -/
def set_all (bps : BreakpointTable) (pid : Nat) (addrs : List RelocatedAddress) :
    BreakpointTable :=
  addrs.foldl (fun t a => set_breakpoint_table t pid true (.Relocated a)) bps

/-- Folds `Debugger::remove_breakpoint` over a list of relocated addresses
(the `try_for_each` over `to_delete`). -/
def remove_all (bps : BreakpointTable) (addrs : List RelocatedAddress) : BreakpointTable :=
  addrs.foldl (fun t a => remove_breakpoint_table t (.Relocated a)) bps

/-- Embeds the effect of a successful `Debugger::step_over` on the
breakpoint table.  In order: plant a transient breakpoint on every
eligible statement line; plant one at the return address when known and
not already present; run `continue_execution`; remove every planted
transient breakpoint. -/
def step_over_table (bps : BreakpointTable) (offset pid : Nat)
    (lines : List (GlobalAddress × Bool)) (cur : GlobalAddress)
    (ret_addr : Option RelocatedAddress) (events : List DebugeeEvent) : BreakpointTable :=
  let planted := step_over_plant bps offset lines cur
  let bps1 := set_all bps pid planted
  let (bps2, to_delete) :=
    match ret_addr with
    | some r =>
      if (bps1 (.Relocated r)).isNone then
        (set_breakpoint_table bps1 pid true (.Relocated r), planted ++ [r])
      else (bps1, planted)
    | none => (bps1, planted)
  let bps3 := continue_execution_table offset events bps2
  remove_all bps3 to_delete

/-- Embeds `to_ne_bytes` of a 64-bit machine word on the (little-endian)
reference configuration: the eight bytes of the word, least significant
first. -/
def to_ne_bytes (w : Nat) : List Nat :=
  (List.range 8).map (fun i => w / 256 ^ i % 256)

/-- Embeds the word loop of `read_memory_by_pid` from
`src/debugger/mod.rs`: while bytes remain, read one machine word via
ptrace (the debugee memory is the external function `mem`, `none` is a
ptrace failure), append at most `rem` of its bytes, advance the address by
the word size. -/
def read_memory_words (mem : Nat → Option Nat) (addr rem : Nat) : Option (List Nat) :=
  if rem = 0 then some []
  else
    match mem addr with
    | none => none
    | some w =>
      (read_memory_words mem (addr + 8) (rem - 8)).map
        (fun rest => (to_ne_bytes w).take rem ++ rest)
termination_by rem
decreasing_by omega

/-- Embeds `read_memory_by_pid(pid, addr, read_n)`; the pid is absorbed
into the memory oracle `mem`. -/
def read_memory_by_pid (mem : Nat → Option Nat) (addr read_n : Nat) : Option (List Nat) :=
  read_memory_words mem addr read_n

/-- Embeds `TraceeStatus` of the thread registry. -/
inductive TraceeStatus where
  | Created
  | Stopped
  | Running
deriving DecidableEq

/-- Embeds a registry entry of `TraceeThread`: kernel thread id and
status. -/
structure TraceeThread where
  pid : Nat
  status : TraceeStatus
deriving DecidableEq

/-- Modelled from the spec: the thread registry `ThreadCtl`
(`src/debugger/debugee/thread.rs` is not part of the source set).  Tracks
all traced threads with their status, a focus thread id and the main
process id. -/
structure ThreadCtl where
  threads : List TraceeThread
  in_focus : Nat
  proc_pid : Nat
deriving DecidableEq

/-- Modelled from the spec: mark the thread `tid` Stopped. -/
def ThreadCtl.set_stop_status (tc : ThreadCtl) (tid : Nat) : ThreadCtl :=
  { tc with threads :=
      tc.threads.map (fun t => if t.pid = tid then { t with status := .Stopped } else t) }

/-- Modelled from the spec: select the focus thread. -/
def ThreadCtl.set_thread_to_focus (tc : ThreadCtl) (tid : Nat) : ThreadCtl :=
  { tc with in_focus := tid }

/-- Modelled from the spec: bulk interrupt of the running threads; the
tracer observes every interrupted thread stopped before the event
surfaces, so each Running entry becomes Stopped. -/
def ThreadCtl.interrupt_running (tc : ThreadCtl) : ThreadCtl :=
  { tc with threads :=
      tc.threads.map (fun t => if t.status = .Running then { t with status := .Stopped } else t) }

/-- Modelled from the spec: bulk continue of the stopped threads; each
Stopped entry becomes Running. -/
def ThreadCtl.cont_stopped (tc : ThreadCtl) : ThreadCtl :=
  { tc with threads :=
      tc.threads.map (fun t => if t.status = .Stopped then { t with status := .Running } else t) }

/-- Modelled from the spec: register a freshly cloned thread as Created. -/
def ThreadCtl.register (tc : ThreadCtl) (tid : Nat) : ThreadCtl :=
  { tc with threads := tc.threads ++ [⟨tid, .Created⟩] }

/-- Modelled from the spec: drop a thread from the registry; idempotent. -/
def ThreadCtl.remove (tc : ThreadCtl) (tid : Nat) : ThreadCtl :=
  { tc with threads := tc.threads.filter (fun t => t.pid ≠ tid) }

/-- Modelled from the spec: status lookup of a registered thread. -/
def ThreadCtl.status (tc : ThreadCtl) (tid : Nat) : Option TraceeStatus :=
  (tc.threads.find? (fun t => t.pid = tid)).map TraceeThread.status

/-- Embeds `DebugeeState` of the debugee controller (variants and payloads
as consumed by `Debugee::apply_state` in `src/debugger/debugee/mod.rs`). -/
inductive DebugeeState where
  | DebugeeStart
  | DebugeeExit (code : Int)
  | ThreadExit (tid : Nat)
  | BeforeNewThread (pid tid : Nat)
  | ThreadInterrupt (tid : Nat)
  | BeforeThreadExit (tid : Nat)
  | Breakpoint (tid : Nat)
  | AtEntryPoint (tid : Nat)
  | OsSignal (info : Int) (tid : Nat)
  | TrapTrace
  | NoSuchProcess (tid : Nat)
deriving DecidableEq

/-- Embeds the `Debugee` struct fields that `apply_state` touches: the
in-progress flag, the optional mapping offset, the thread registry and the
rendezvous slot. -/
structure Debugee where
  in_progress : Bool
  mapping_addr : Option Nat
  threads_ctl : ThreadCtl
  rendezvous : Option Unit
deriving DecidableEq

/-- Embeds `Debugee::apply_state` from `src/debugger/debugee/mod.rs`.
The result of `define_mapping_addr` (a proc-maps walk, external) arrives
as the parameter `mapping_result`; `none` embeds the panic of
`mapping_offset()` when the offset is read before `DebugeeStart`. -/
def Debugee.apply_state (mapping_result : Nat) (d : Debugee) :
    DebugeeState → Option Debugee
  | .DebugeeStart =>
    some { d with
      in_progress := true
      mapping_addr := some mapping_result
      threads_ctl := d.threads_ctl.set_stop_status d.threads_ctl.proc_pid }
  | .DebugeeExit _ =>
    some { d with threads_ctl := d.threads_ctl.remove d.threads_ctl.proc_pid }
  | .ThreadExit tid =>
    some { d with threads_ctl := d.threads_ctl.remove tid }
  | .BeforeNewThread pid tid =>
    some { d with threads_ctl := (d.threads_ctl.set_stop_status pid).register tid }
  | .ThreadInterrupt tid =>
    if d.threads_ctl.status tid = some .Created then
      some { d with threads_ctl := (d.threads_ctl.set_stop_status tid).cont_stopped }
    else
      some { d with threads_ctl := d.threads_ctl.set_stop_status tid }
  | .BeforeThreadExit tid =>
    some { d with threads_ctl :=
      ((d.threads_ctl.set_stop_status tid).cont_stopped).remove tid }
  | .Breakpoint tid =>
    some { d with threads_ctl :=
      ((d.threads_ctl.set_thread_to_focus tid).set_stop_status tid).interrupt_running }
  | .AtEntryPoint tid =>
    match d.mapping_addr with
    | none => none
    | some _ =>
      some { d with
        rendezvous := some ()
        threads_ctl :=
          ((d.threads_ctl.set_thread_to_focus tid).set_stop_status tid).interrupt_running }
  | .OsSignal _ tid =>
    some { d with threads_ctl :=
      ((d.threads_ctl.set_thread_to_focus tid).set_stop_status tid).interrupt_running }
  | _ => some d

/-- Embeds the error kind the facade raises before start;
`NotStarted` stands for the anyhow error with the message
"The program is not being started." raised by the
`disable_when_not_stared` macro, `Other` for every other error. -/
inductive DebugError where
  | NotStarted
  | Other
deriving DecidableEq

/-- Trace (ptrace) operations the breakpoint engine issues: writing the
trap opcode on enable, restoring the original byte on disable. -/
inductive TraceOp where
  | write_trap (addr : PCValue)
  | restore_byte (addr : PCValue)
deriving DecidableEq

/-- Embeds the `Debugger` struct fields that the facade precondition and
the breakpoint methods touch. -/
structure Debugger where
  in_progress : Bool
  breakpoints : BreakpointTable
  proc_pid : Nat

/-- Embeds `Debugger::set_breakpoint`: create a record, enable it (a trace
operation) only when the debugee is in progress, insert it. -/
def Debugger.set_breakpoint (st : Debugger) (addr : PCValue) :
    Except DebugError (Debugger × List TraceOp) :=
  .ok
    ({ st with breakpoints := set_breakpoint_table st.breakpoints st.proc_pid st.in_progress addr },
      if st.in_progress then [.write_trap addr] else [])

/-- Embeds `Debugger::remove_breakpoint`: remove the record at the key;
when a record existed and was enabled, disable it (a trace operation).
The method carries no started precondition. -/
def Debugger.remove_breakpoint (st : Debugger) (addr : PCValue) :
    Except DebugError (Debugger × List TraceOp) :=
  match st.breakpoints addr with
  | some b =>
    .ok ({ st with breakpoints := remove_breakpoint_table st.breakpoints addr },
      if b.enabled then [.restore_byte addr] else [])
  | none =>
    .ok ({ st with breakpoints := remove_breakpoint_table st.breakpoints addr }, [])

/-- The user-visible facade methods of `src/debugger/mod.rs` reachable on
a debugee that has not necessarily started. -/
inductive FacadeMethod where
  | continue_debugee
  | frame_info
  | step_into
  | stepi
  | thread_state
  | backtrace
  | read_memory
  | write_memory
  | step_out
  | step_in
  | step_over
  | read_local_variables
  | read_variable
  | read_arguments
  | get_register_value
  | get_registers
  | set_register_value
  | set_breakpoint
  | remove_breakpoint
deriving DecidableEq

/-- Embeds the `disable_when_not_stared` macro of `src/debugger/mod.rs`:
bail out with the not-started error before the method body runs when the
in-progress flag is false. -/
def disable_when_not_stared (in_progress : Bool)
    (body : Except DebugError (Debugger × List TraceOp)) :
    Except DebugError (Debugger × List TraceOp) :=
  if in_progress then body else .error .NotStarted

/-- Embeds the facade dispatch: `set_breakpoint` and `remove_breakpoint`
run their bodies directly, every other method first runs the
`disable_when_not_stared` guard; the guarded method bodies (which run only
once started) arrive as the external parameter `bodies`. -/
def facade_call (st : Debugger) (addr : PCValue)
    (bodies : FacadeMethod → Except DebugError (Debugger × List TraceOp)) :
    FacadeMethod → Except DebugError (Debugger × List TraceOp)
  | .set_breakpoint => st.set_breakpoint addr
  | .remove_breakpoint => st.remove_breakpoint addr
  | m => disable_when_not_stared st.in_progress (bodies m)

/-- Alias shielding the mathematical integer type from the shadowing by
homonymous constructor names inside inductive declarations. -/
abbrev IntT : Type := Int

/-- Alias for the boolean type, as `IntT`. -/
abbrev BoolT : Type := Bool

/-- Alias for the string type, as `IntT`. -/
abbrev StringT : Type := String

/-- Alias for the character type, as `IntT`. -/
abbrev CharT : Type := Char

mutual
/-- Modelled from the spec: the literal grammar of the command parser
(`src/debugger/variable/select.rs` is not part of the source set): integer,
float, boolean, string, address, enum-variant with optional payload,
positional array with wildcards, associative array with wildcards.  Float
literals are carried as their exact rational values. -/
inductive Literal where
  | Int (n : IntT)
  | Float (f : Rat)
  | Bool (b : BoolT)
  | String (s : StringT)
  | Address (a : Nat)
  | EnumVariant (name : StringT) (payload : Option Literal)
  | Array (items : List LiteralOrWildcard)
  | AssocArray (fields : List (StringT × LiteralOrWildcard))
/-- Modelled from the spec: an element of an array or associative-array
literal is a literal or a wildcard. -/
inductive LiteralOrWildcard where
  | Literal (lit : Literal)
  | Wildcard
end

/-- Modelled from the spec: an integer literal equals a 64-bit integer by
numeric equality; no other literal kind equals an integer. -/
def Literal.equal_with_int : Literal → IntT → BoolT
  | .Int n, i => n == i
  | _, _ => false

/-- Modelled from the spec: a float literal equals a 64-bit float by
numeric equality on the exact values; no other literal kind does. -/
def Literal.equal_with_float : Literal → Rat → BoolT
  | .Float f, x => f == x
  | _, _ => false

/-- Modelled from the spec: a boolean literal equals a boolean. -/
def Literal.equal_with_bool : Literal → BoolT → BoolT
  | .Bool b, x => b == x
  | _, _ => false

/-- Modelled from the spec: a string literal equals a string. -/
def Literal.equal_with_string : Literal → StringT → BoolT
  | .String s, t => s == t
  | _, _ => false

/-- Modelled from the spec: an address literal equals a raw machine
pointer by raw numeric equality. -/
def Literal.equal_with_address : Literal → Nat → BoolT
  | .Address a, p => a == p
  | _, _ => false

/-- Embeds `SupportedScalar` from `src/debugger/variable/mod.rs`.  Signed
values are carried as `Int`, unsigned as `Nat`; a constructor of width `w`
produced by the variable parser holds only values representable in `w`
bits.  Floats are carried as their exact rational values (every `f32`
value is exactly representable as an `f64`, so the `as f64` widening is
value-preserving). -/
inductive SupportedScalar where
  | I8 (v : Int)
  | I16 (v : Int)
  | I32 (v : Int)
  | I64 (v : Int)
  | I128 (v : Int)
  | Isize (v : Int)
  | U8 (v : Nat)
  | U16 (v : Nat)
  | U32 (v : Nat)
  | U64 (v : Nat)
  | U128 (v : Nat)
  | Usize (v : Nat)
  | F32 (v : Rat)
  | F64 (v : Rat)
  | Bool (b : BoolT)
  | Char (c : CharT)
  | Empty
deriving DecidableEq

/-- Semantics of the Rust cast `as i64` on a mathematical integer:
wrap into the interval from `-2 ^ 63` (inclusive) to `2 ^ 63`
(exclusive). -/
def i64_wrap (v : Int) : Int :=
  (v + 2 ^ 63) % 2 ^ 64 - 2 ^ 63

/-- Embeds `SupportedScalar::equal_with_literal`: every integer scalar is
cast `as i64` (value-preserving for the widths up to 64 bits signed and
below 64 bits unsigned, wrapping for `i128`, `u64`, `usize`, `u128`),
`f32` is widened to `f64`, booleans compare as booleans and chars compare
as their one-character string rendering. -/
def SupportedScalar.equal_with_literal (s : SupportedScalar) (lhs : Literal) : BoolT :=
  match s with
  | .I8 i => lhs.equal_with_int i
  | .I16 i => lhs.equal_with_int i
  | .I32 i => lhs.equal_with_int i
  | .I64 i => lhs.equal_with_int i
  | .I128 i => lhs.equal_with_int (i64_wrap i)
  | .Isize i => lhs.equal_with_int i
  | .U8 u => lhs.equal_with_int u
  | .U16 u => lhs.equal_with_int u
  | .U32 u => lhs.equal_with_int u
  | .U64 u => lhs.equal_with_int (i64_wrap u)
  | .U128 u => lhs.equal_with_int (i64_wrap u)
  | .Usize u => lhs.equal_with_int (i64_wrap u)
  | .F32 f => lhs.equal_with_float f
  | .F64 f => lhs.equal_with_float f
  | .Bool b => lhs.equal_with_bool b
  | .Char c => lhs.equal_with_string (String.mk [c])
  | .Empty => false

/-- Mathematical value of an integer scalar, `none` for the
non-integer scalars. -/
def SupportedScalar.int_value : SupportedScalar → Option Int
  | .I8 v => some v
  | .I16 v => some v
  | .I32 v => some v
  | .I64 v => some v
  | .I128 v => some v
  | .Isize v => some v
  | .U8 v => some v
  | .U16 v => some v
  | .U32 v => some v
  | .U64 v => some v
  | .U128 v => some v
  | .Usize v => some v
  | _ => none

/-- Embeds `VariableIdentity`: namespace path and optional name. -/
structure VariableIdentity where
  ns : List String
  name : Option String
deriving DecidableEq

/-- Embeds `ScalarVariable`. -/
structure ScalarVariable where
  identity : VariableIdentity
  type_name : Option String
  value : Option SupportedScalar
deriving DecidableEq

/-- Embeds `CEnumVariable`: the string rendering of the selected
variant. -/
structure CEnumVariable where
  identity : VariableIdentity
  type_name : Option String
  value : Option String
deriving DecidableEq

/-- Embeds `PointerVariable`: the raw pointer as a machine word, the
target type as an opaque type identity. -/
structure PointerVariable where
  identity : VariableIdentity
  type_name : Option String
  value : Option Nat
  target_type : Option Nat
deriving DecidableEq

/-- Embeds `SubroutineVariable`. -/
structure SubroutineVariable where
  identity : VariableIdentity
  return_type_name : Option String
deriving DecidableEq

/-- Modelled from the spec: the owned-string specialization
(`src/debugger/variable/specialization.rs` is not part of the source set;
fields as used by `match_literal`). -/
structure StringVariable where
  identity : VariableIdentity
  value : String
deriving DecidableEq

/-- Modelled from the spec: the string-slice specialization. -/
structure StrVariable where
  identity : VariableIdentity
  value : String
deriving DecidableEq

mutual
/-- Embeds `VariableIR` and its recursive components from
`src/debugger/variable/mod.rs`, together with the specialization payloads
of `src/debugger/variable/specialization.rs` (the latter file is not part
of the source set; its variants and fields are modelled from the spec and
from their uses in `match_literal`).  Type parameters and type identities
are kept as bare identifiers. -/
inductive VariableIR where
  | Scalar (v : ScalarVariable)
  | Struct (v : StructVariable)
  | Array (v : ArrayVariable)
  | CEnum (v : CEnumVariable)
  | RustEnum (v : RustEnumVariable)
  | Pointer (v : PointerVariable)
  | Subroutine (v : SubroutineVariable)
  | Specialized (v : SpecializedVariableIR)
  | CModifiedVariable (v : CModifiedVariable)
inductive StructVariable where
  | mk (identity : VariableIdentity) (type_name : Option String)
      (members : List VariableIR) (type_params : List (String × Option Nat))
inductive ArrayVariable where
  | mk (identity : VariableIdentity) (type_name : Option String)
      (items : Option (List VariableIR))
inductive RustEnumVariable where
  | mk (identity : VariableIdentity) (type_name : Option String)
      (value : Option VariableIR)
inductive CModifiedVariable where
  | mk (identity : VariableIdentity) (type_name : Option String)
      (value : Option VariableIR)
inductive VecVariable where
  | mk (structure' : StructVariable)
inductive HashSetVariable where
  | mk (identity : VariableIdentity) (type_name : Option String)
      (items : List VariableIR)
inductive HashMapVariable where
  | mk (identity : VariableIdentity) (type_name : Option String)
      (kv_items : List (VariableIR × VariableIR))
inductive TlsVariable where
  | mk (identity : VariableIdentity) (inner_value : Option VariableIR)
inductive SpecializedVariableIR where
  | Vector (vec : Option VecVariable) (original : StructVariable)
  | VecDeque (vec : Option VecVariable) (original : StructVariable)
  | HashMap (map : Option HashMapVariable) (original : StructVariable)
  | HashSet (set : Option HashSetVariable) (original : StructVariable)
  | BTreeMap (map : Option HashMapVariable) (original : StructVariable)
  | BTreeSet (set : Option HashSetVariable) (original : StructVariable)
  | String (string : Option StringVariable) (original : StructVariable)
  | Str (string : Option StrVariable) (original : StructVariable)
  | Tls (tls_var : Option TlsVariable) (original : StructVariable)
  | Cell (value : Option VariableIR) (original : StructVariable)
  | RefCell (value : Option VariableIR) (original : StructVariable)
  | Rc (value : Option PointerVariable) (original : StructVariable)
  | Arc (value : Option PointerVariable) (original : StructVariable)
  | Uuid (value : Option (List Nat)) (original : StructVariable)
end

/-- Identity of a plain structure IR. -/
def StructVariable.identity : StructVariable → VariableIdentity
  | .mk id _ _ _ => id

/-- Embeds the `original` access of the `identity()` match arm for
specialized IR nodes. -/
def SpecializedVariableIR.original : SpecializedVariableIR → StructVariable
  | .Vector _ o => o
  | .VecDeque _ o => o
  | .HashMap _ o => o
  | .HashSet _ o => o
  | .BTreeMap _ o => o
  | .BTreeSet _ o => o
  | .String _ o => o
  | .Str _ o => o
  | .Tls _ o => o
  | .Cell _ o => o
  | .RefCell _ o => o
  | .Rc _ o => o
  | .Arc _ o => o
  | .Uuid _ o => o

/-- Embeds `VariableIR::identity`. -/
def VariableIR.identity : VariableIR → VariableIdentity
  | .Scalar s => s.identity
  | .Struct s => s.identity
  | .Array (.mk id _ _) => id
  | .CEnum e => e.identity
  | .RustEnum (.mk id _ _) => id
  | .Pointer p => p.identity
  | .Subroutine s => s.identity
  | .Specialized s => s.original.identity
  | .CModifiedVariable (.mk id _ _) => id

/-- Hexadecimal digit characters, least significant first. -/
def hex_digit (n : Nat) : Char :=
  "0123456789abcdef".toList.getD n '0'

/-- Two lowercase hexadecimal digits of a byte. -/
def byte_hex (b : Nat) : String :=
  String.mk [hex_digit (b / 16 % 16), hex_digit (b % 16)]

/-- Hexadecimal rendering of a byte segment. -/
def bytes_hex (bs : List Nat) : String :=
  String.join (bs.map byte_hex)

/-- Modelled from the spec: the canonical dashed 36-character lowercase
hexadecimal rendering of a 16-byte UUID produced by the external uuid
crate (`Uuid::from_bytes(bytes).to_string()`), segments of 4, 2, 2, 2 and
6 bytes. -/
def uuid_render (bytes : List Nat) : String :=
  bytes_hex (bytes.take 4) ++ "-" ++
    bytes_hex ((bytes.drop 4).take 2) ++ "-" ++
    bytes_hex ((bytes.drop 6).take 2) ++ "-" ++
    bytes_hex ((bytes.drop 8).take 2) ++ "-" ++
    bytes_hex (bytes.drop 10)

/-- Embeds `Vec::swap_remove(i)`: the element at `i` is replaced by the
last element and the last element is popped. -/
def swapRemove (l : List LiteralOrWildcard) (i : Nat) : List LiteralOrWildcard :=
  match l.getLast? with
  | none => l
  | some last => (l.set i last).dropLast

/-- True on a wildcard entry. -/
def LiteralOrWildcard.isWildcard : LiteralOrWildcard → Bool
  | .Wildcard => true
  | _ => false

mutual
/-- Embeds `VariableIR::match_literal` from
`src/debugger/variable/mod.rs`: scalar, pointer, array, structure,
specialized, c-enum and rust-enum nodes against a literal; every other
combination is no match. -/
def matchLiteral : VariableIR → Literal → Bool
  | .Scalar ⟨_, _, some scalar⟩, literal => scalar.equal_with_literal literal
  | .Pointer ⟨_, _, some ptr, _⟩, literal => literal.equal_with_address ptr
  | .Array (.mk _ _ (some items)), literal =>
    match literal with
    | .Array arr_literal =>
      arr_literal.length == items.length && matchPositional items arr_literal
    | _ => false
  | .Struct (.mk _ _ members _), literal =>
    match literal with
    | .Array array_literal =>
      array_literal.length == members.length && matchPositional members array_literal
    | .AssocArray struct_literal =>
      struct_literal.length == members.length && matchAssoc members struct_literal
    | _ => false
  | .Specialized spec, literal =>
    match spec with
    | .String (some s) _ => literal.equal_with_string s.value
    | .Str (some s) _ => literal.equal_with_string s.value
    | .Uuid (some bytes) _ => literal.equal_with_string (uuid_render bytes)
    | .Cell (some inner) _ => matchLiteral inner literal
    | .RefCell (some inner) _ => matchLiteral inner literal
    | .Rc (some ⟨_, _, some ptr, _⟩) _ => literal.equal_with_address ptr
    | .Arc (some ⟨_, _, some ptr, _⟩) _ => literal.equal_with_address ptr
    | .Vector (some v) _ => matchVecInner v literal
    | .VecDeque (some v) _ => matchVecInner v literal
    | .HashSet (some (.mk _ _ items)) _ =>
      match literal with
      | .Array arr_literal =>
        arr_literal.length == items.length && matchSetLoop items arr_literal
      | _ => false
    | .BTreeSet (some (.mk _ _ items)) _ =>
      match literal with
      | .Array arr_literal =>
        arr_literal.length == items.length && matchSetLoop items arr_literal
      | _ => false
    | _ => false
  | .CEnum ⟨_, _, some value⟩, literal =>
    match literal with
    | .EnumVariant variant none => value == variant
    | _ => false
  | .RustEnum (.mk _ _ (some value)), literal =>
    match literal with
    | .EnumVariant variant variant_value =>
      (value.identity.name == some variant) &&
        (match variant_value with
          | none => true
          | some lit => matchLiteral value lit)
    | _ => false
  | _, _ => false
termination_by ir _ => sizeOf ir
decreasing_by all_goals (simp_wf; try omega)

/-- Embeds the vector arm of `match_literal`: `swap_remove(0)` of the
members of the inner structure yields the backing array IR, which is
matched; the members of a parsed vector specialization are never empty. -/
def matchVecInner : VecVariable → Literal → Bool
  | .mk (.mk _ _ [] _), _ => false
  | .mk (.mk _ _ (inner :: _) _), literal => matchLiteral inner literal
termination_by v _ => sizeOf v
decreasing_by all_goals (simp_wf; try omega)

/-- Embeds the positional loop shared by the array and tuple-structure
arms of `match_literal`: pair by position, wildcards always match; run
under the equal-length guard. -/
def matchPositional : List VariableIR → List LiteralOrWildcard → Bool
  | [], _ => true
  | _ :: _, [] => true
  | item :: rest, l :: ls =>
    match l with
    | .Wildcard => matchPositional rest ls
    | .Literal lit => matchLiteral item lit && matchPositional rest ls
termination_by items _ => sizeOf items
decreasing_by all_goals (simp_wf; try omega)

/-- Embeds the associative-array loop of the structure arm of
`match_literal`: every member needs a name and a field literal under that
name; wildcards always match. -/
def matchAssoc : List VariableIR → List (StringT × LiteralOrWildcard) → Bool
  | [], _ => true
  | member :: rest, struct_literal =>
    match member.identity.name with
    | none => false
    | some mname =>
      match (struct_literal.find? (fun p => p.1 == mname)).map Prod.snd with
      | none => false
      | some .Wildcard => matchAssoc rest struct_literal
      | some (.Literal lit) => matchLiteral member lit && matchAssoc rest struct_literal
termination_by members _ => sizeOf members
decreasing_by all_goals (simp_wf; try omega)

/-- Embeds the greedy set loop of the hash-set and tree-set arms of
`match_literal`: for each item, take the position of the first unconsumed
concrete literal it matches and swap-remove it; failing that, the position
of the first unconsumed wildcard; failing both, no match. -/
def matchSetLoop : List VariableIR → List LiteralOrWildcard → Bool
  | [], _ => true
  | item :: rest, lits =>
    match lits.findIdx? (fun l =>
        match l with
        | .Literal lit => matchLiteral item lit
        | .Wildcard => false) with
    | some idx => matchSetLoop rest (swapRemove lits idx)
    | none =>
      match lits.findIdx? LiteralOrWildcard.isWildcard with
      | some idx => matchSetLoop rest (swapRemove lits idx)
      | none => false
termination_by items _ => sizeOf items
decreasing_by all_goals (simp_wf; try omega)
end

/-- Written from the wording of the set-matching rule of the spec: one
item consumes one unconsumed entry, first some concrete literal it
matches (the first such position) or, failing that, a wildcard; `none`
when the item stays unpaired. -/
def consume_one (item : VariableIR) (lits : List LiteralOrWildcard) :
    Option (List LiteralOrWildcard) :=
  match lits.findIdx? (fun l =>
      match l with
      | .Literal lit => matchLiteral item lit
      | .Wildcard => false) with
  | some idx => some (swapRemove lits idx)
  | none =>
    match lits.findIdx? LiteralOrWildcard.isWildcard with
    | some idx => some (swapRemove lits idx)
    | none => none

/-- Written from the wording of the set-matching rule of the spec: the
greedy pass over the items succeeds when every item consumes an entry. -/
def greedy_pass : List VariableIR → List LiteralOrWildcard → Bool
  | [], _ => true
  | item :: rest, lits =>
    match consume_one item lits with
    | some lits2 => greedy_pass rest lits2
    | none => false

/-- Embeds the `ThreadSnapshot` rows that `thread_state` produces (the
`ThreadDump` of `src/debugger/mod.rs`): registry entry, program counter,
backtrace and the focus mark. -/
structure ThreadSnapshot where
  thread : TraceeThread
  pc : Option RelocatedAddress
  bt : Option (List RelocatedAddress)
  in_focus : Bool

/-- Embeds `Trace::handle` from `src/debugger/command/trace.rs`: take the
dump of `thread_state` (arriving as the external parameter `dump`) and
sort it by kernel thread id.  `sort_unstable_by` is embedded as a merge
sort with the same comparator; the Rust contract of the sort is that the
output is ordered by the comparator and is a permutation of the input. -/
def Trace.handle (dump : List ThreadSnapshot) : List ThreadSnapshot :=
  dump.mergeSort (fun t1 t2 => t1.thread.pid ≤ t2.thread.pid)

/-- Concrete breakpoint table holding one record keyed by the global
address 100, for evaluating the start transition. -/
def table_one_global : BreakpointTable :=
  fun k => if k = .Global ⟨100⟩ then some ⟨.Global ⟨100⟩, 7, false⟩ else none

/-- Concrete debugger state that has not started, with an empty table. -/
def debugger_not_started : Debugger :=
  ⟨false, fun _ => none, 1⟩

/-- Concrete facade bodies that would fail if ever entered. -/
def failing_bodies : FacadeMethod → Except DebugError (Debugger × List TraceOp) :=
  fun _ => .error .Other

/-- Concrete debugee before a breakpoint hit: thread 1 stopped, thread 2
running, focus on 1. -/
def debugee_two_threads : Debugee :=
  ⟨true, some 0, ⟨[⟨1, .Stopped⟩, ⟨2, .Running⟩], 1, 1⟩, none⟩

/-- Concrete debugee after applying the breakpoint stop of thread 2. -/
def debugee_two_threads_stopped : Debugee :=
  ⟨true, some 0, ⟨[⟨1, .Stopped⟩, ⟨2, .Stopped⟩], 2, 1⟩, none⟩

/-- The sixteen UUID bytes of the end-to-end scenario of the spec. -/
def uuid_bytes_s6 : List Nat :=
  [0xd0, 0x60, 0x66, 0x29, 0x78, 0x6a, 0x44, 0xbe,
    0x9d, 0x49, 0xb7, 0x02, 0x0f, 0x3e, 0xb0, 0x5a]

/-- A nameless empty structure standing for the original structure IR of a
specialized node in concrete evaluations. -/
def empty_original : StructVariable :=
  .mk ⟨[], none⟩ none [] []

/-- Round trip used by several claims: relocating a representable global
address and converting back with the same representable offset is the
identity. -/
theorem relocate_into_global (g : GlobalAddress) (offset : Nat)
    (hg : g.val < WORD) (_ho : offset < WORD) :
    (g.relocate offset).into_global offset = g := by
  obtain ⟨v⟩ := g
  simp only [GlobalAddress.relocate, RelocatedAddress.into_global, GlobalAddress.mk.injEq]
  simp only [WORD] at *
  omega

/-- C6: for every global address `g` representable in a machine word and
every fixed mapping offset `o` representable in a machine word,
`g.relocate(o).into_global(o) = g`. -/
theorem relocate_roundtrip_identity (g : GlobalAddress) (offset : Nat)
    (hg : g.val < WORD) (ho : offset < WORD) :
    (g.relocate offset).into_global offset = g :=
  relocate_into_global g offset hg ho

/-- Witness for C6 at the concrete global address 4096 and offset 77. -/
theorem relocate_roundtrip_identity_witness :
    (4096 : Nat) < WORD ∧ (77 : Nat) < WORD ∧
      (GlobalAddress.relocate ⟨4096⟩ 77).into_global 77 = ⟨4096⟩ :=
  ⟨by decide, by decide,
    relocate_roundtrip_identity ⟨4096⟩ 77 (by decide) (by decide)⟩

/-- C1: at the DebugeeStart transition every record keyed by a global
address is rekeyed by the corresponding relocated address
(global + mapping offset) and enabled, and afterwards every key of the
breakpoint table is of the relocated kind. -/
theorem debugee_start_rekeys_and_enables (bps : BreakpointTable) (offset : Nat)
    (ho : offset < WORD) :
    (∀ k, (debugee_start_transition bps offset k).isSome → ∃ r, k = PCValue.Relocated r) ∧
    (∀ g b, bps (.Global g) = some b → g.val < WORD →
      debugee_start_transition bps offset (.Relocated (g.relocate offset)) =
        some { b with addr := .Relocated (g.relocate offset), enabled := true }) := by
  constructor
  · intro k hk
    cases k with
    | Relocated r => exact ⟨r, rfl⟩
    | Global g =>
      simp [debugee_start_transition, debugee_start_rekey] at hk
  · intro g b hb hg
    have hround : (GlobalAddress.relocate g offset).into_global offset = g :=
      relocate_into_global g offset hg ho
    simp only [debugee_start_transition, debugee_start_rekey, hround, hb, if_pos rfl]
    rfl

/-- Witness for C1: the table with one record at global address 100 and
offset 10 rekeys that record to the relocated address 110 and enables
it. -/
theorem debugee_start_rekeys_and_enables_witness :
    (10 : Nat) < WORD ∧ (100 : Nat) < WORD ∧
      table_one_global (.Global ⟨100⟩) = some ⟨.Global ⟨100⟩, 7, false⟩ ∧
      debugee_start_transition table_one_global 10
          (.Relocated (GlobalAddress.relocate ⟨100⟩ 10)) =
        some ⟨.Relocated (GlobalAddress.relocate ⟨100⟩ 10), 7, true⟩ :=
  ⟨by decide, by decide, rfl,
    (debugee_start_rekeys_and_enables table_one_global 10 (by decide)).2
      ⟨100⟩ ⟨.Global ⟨100⟩, 7, false⟩ rfl (by decide)⟩

/-- Length of one word loop step: taking at most `rem` of the eight bytes
of a word. -/
theorem to_ne_bytes_length (w : Nat) : (to_ne_bytes w).length = 8 := by
  simp [to_ne_bytes]

/-- The word loop of `read_memory_by_pid` returns exactly as many bytes as
requested whenever every word read succeeds. -/
theorem read_memory_words_length (mem : Nat → Option Nat) :
    ∀ (rem addr : Nat) (res : List Nat),
      read_memory_words mem addr rem = some res → res.length = rem := by
  intro rem
  induction rem using Nat.strong_induction_on with
  | _ rem ih =>
    intro addr res hres
    rw [read_memory_words] at hres
    by_cases h0 : rem = 0
    · simp [h0] at hres
      simp [← hres, h0]
    · simp only [h0, if_false] at hres
      cases hw : mem addr with
      | none => rw [hw] at hres; simp at hres
      | some w =>
        rw [hw] at hres
        cases hrest : read_memory_words mem (addr + 8) (rem - 8) with
        | none => rw [hrest] at hres; simp at hres
        | some rest =>
          rw [hrest] at hres
          simp only [Option.map_some', Option.some.injEq] at hres
          have hlen : rest.length = rem - 8 :=
            ih (rem - 8) (by omega) (addr + 8) rest hrest
          subst hres
          simp [List.length_append, List.length_take, to_ne_bytes_length, hlen]
          omega

/-- C4: a successful read of `read_n` bytes of debugee memory returns a
byte vector of length exactly `read_n`, the partial tail of the last word
being truncated. -/
theorem read_memory_exact_length (mem : Nat → Option Nat) (addr read_n : Nat)
    (res : List Nat) (h : read_memory_by_pid mem addr read_n = some res) :
    res.length = read_n :=
  read_memory_words_length mem read_n addr res h

/-- Witness for C4: reading 13 bytes from the memory whose every word
equals its address yields exactly 13 bytes. -/
theorem read_memory_exact_length_witness :
    read_memory_by_pid (fun a => some a) 0 13 =
        some [0, 0, 0, 0, 0, 0, 0, 0, 8, 0, 0, 0, 0] ∧
      ([0, 0, 0, 0, 0, 0, 0, 0, 8, 0, 0, 0, 0] : List Nat).length = 13 := by
  have h : read_memory_by_pid (fun a => some a) 0 13 =
      some [0, 0, 0, 0, 0, 0, 0, 0, 8, 0, 0, 0, 0] := by
    rw [read_memory_by_pid, read_memory_words, read_memory_words, read_memory_words]
    norm_num [to_ne_bytes, List.range_succ]
  exact ⟨h, read_memory_exact_length (fun a => some a) 0 13 _ h⟩

/-- Counterexample to C5 as stated: on a debugee that has not started,
`remove_breakpoint` does not fail with the not-started error; it succeeds
and performs no trace operation (the record, when present, is disabled
before start). -/
theorem remove_breakpoint_not_started_succeeds :
    facade_call debugger_not_started (.Global ⟨0⟩) failing_bodies .remove_breakpoint =
        .ok ({ debugger_not_started with
            breakpoints := remove_breakpoint_table debugger_not_started.breakpoints
              (.Global ⟨0⟩) }, []) ∧
      (Except.ok ({ debugger_not_started with
            breakpoints := remove_breakpoint_table debugger_not_started.breakpoints
              (.Global ⟨0⟩) }, ([] : List TraceOp)) ≠
          (.error .NotStarted : Except DebugError (Debugger × List TraceOp))) :=
  ⟨rfl, fun h => Except.noConfusion h⟩

/-- C5 as amended: every user-visible facade method except
`set_breakpoint` and `remove_breakpoint` fails with the
"program not started" error and performs no trace operation when the
in-progress flag is false. -/
theorem guarded_methods_fail_when_not_started (st : Debugger) (addr : PCValue)
    (bodies : FacadeMethod → Except DebugError (Debugger × List TraceOp))
    (m : FacadeMethod) (h1 : m ≠ .set_breakpoint) (h2 : m ≠ .remove_breakpoint)
    (hprog : st.in_progress = false) :
    facade_call st addr bodies m = .error .NotStarted := by
  cases m <;> simp_all [facade_call, disable_when_not_stared]

/-- Witness for the amended C5: `continue` on a not-started debugee fails
with the not-started error. -/
theorem guarded_methods_fail_when_not_started_witness :
    facade_call debugger_not_started (.Global ⟨0⟩) failing_bodies .continue_debugee =
      .error .NotStarted :=
  guarded_methods_fail_when_not_started debugger_not_started (.Global ⟨0⟩)
    failing_bodies .continue_debugee (by decide) (by decide) rfl

/-- C10: the thread snapshots returned by the trace command are sorted in
ascending order of kernel thread id, whatever order `thread_state`
produced them in, and they are a permutation of that dump. -/
theorem trace_handle_sorted_by_pid (dump : List ThreadSnapshot) :
    List.Pairwise (fun t1 t2 => t1.thread.pid ≤ t2.thread.pid) (Trace.handle dump) ∧
      (Trace.handle dump).Perm dump := by
  constructor
  · have h := @List.sorted_mergeSort ThreadSnapshot
      (fun t1 t2 : ThreadSnapshot => t1.thread.pid ≤ t2.thread.pid)
      (fun a b c hab hbc => by
        simp only [decide_eq_true_eq] at *
        omega)
      (fun a b => by
        simp only [Bool.or_eq_true, decide_eq_true_eq]
        exact Nat.le_total _ _)
      dump
    exact h.imp (fun hab => by simpa using hab)
  · exact List.mergeSort_perm dump _

/-- After focusing a thread, stopping it and interrupting the running
threads, every registry entry that was not freshly Created is Stopped. -/
theorem stop_and_interrupt_statuses (tc : ThreadCtl) (tid : Nat)
    (hlive : ∀ t ∈ tc.threads, t.status ≠ .Created) :
    ∀ t ∈ (((tc.set_thread_to_focus tid).set_stop_status tid).interrupt_running).threads,
      t.status = .Stopped := by
  intro t ht
  simp only [ThreadCtl.set_thread_to_focus, ThreadCtl.set_stop_status,
    ThreadCtl.interrupt_running, List.map_map, List.mem_map, Function.comp] at ht
  obtain ⟨t0, ht0, rfl⟩ := ht
  have hnc := hlive t0 ht0
  by_cases hp : t0.pid = tid
  · simp [hp]
  · cases hst : t0.status with
    | Created => exact absurd hst hnc
    | Stopped => simp [hp, hst]
    | Running => simp [hp, hst]

/-- The same composite registry update keeps every kernel thread id. -/
theorem stop_and_interrupt_mem (tc : ThreadCtl) (tid : Nat)
    (hmem : ∃ t ∈ tc.threads, t.pid = tid) :
    ∃ t ∈ (((tc.set_thread_to_focus tid).set_stop_status tid).interrupt_running).threads,
      t.pid = tid := by
  obtain ⟨t0, ht0, hp⟩ := hmem
  simp only [ThreadCtl.set_thread_to_focus, ThreadCtl.set_stop_status,
    ThreadCtl.interrupt_running, List.map_map, List.mem_map, Function.comp]
  refine ⟨_, ⟨t0, ht0, rfl⟩, ?_⟩
  by_cases hc : t0.pid = tid <;> simp [hc, hp, apply_ite TraceeThread.pid]

/-- C2: when the controller applies an observable stop event (Breakpoint,
AtEntryPoint or OsSignal) for a registered thread `tid` to a registry with
no freshly Created entries, every thread of the resulting registry is
Stopped, and the focus thread is `tid`, one of the Stopped threads. -/
theorem observable_stop_all_threads_stopped (m : Nat) (d d2 : Debugee)
    (st : DebugeeState) (tid : Nat)
    (hst : st = .Breakpoint tid ∨ st = .AtEntryPoint tid ∨ ∃ info, st = .OsSignal info tid)
    (hmem : ∃ t ∈ d.threads_ctl.threads, t.pid = tid)
    (hlive : ∀ t ∈ d.threads_ctl.threads, t.status ≠ .Created)
    (happ : d.apply_state m st = some d2) :
    (∀ t ∈ d2.threads_ctl.threads, t.status = .Stopped) ∧
      d2.threads_ctl.in_focus = tid ∧
      ∃ t ∈ d2.threads_ctl.threads,
        t.pid = d2.threads_ctl.in_focus ∧ t.status = .Stopped := by
  have main : d2.threads_ctl =
      ((d.threads_ctl.set_thread_to_focus tid).set_stop_status tid).interrupt_running := by
    rcases hst with h | h | ⟨info, h⟩
    · subst h
      simp only [Debugee.apply_state, Option.some.injEq] at happ
      rw [← happ]
    · subst h
      simp only [Debugee.apply_state] at happ
      cases hma : d.mapping_addr with
      | none => rw [hma] at happ; simp at happ
      | some a =>
        rw [hma] at happ
        simp only [Option.some.injEq] at happ
        rw [← happ]
    · subst h
      simp only [Debugee.apply_state, Option.some.injEq] at happ
      rw [← happ]
  rw [main]
  have hfocus :
      ((((d.threads_ctl.set_thread_to_focus tid).set_stop_status tid).interrupt_running)).in_focus
        = tid := rfl
  refine ⟨stop_and_interrupt_statuses d.threads_ctl tid hlive, hfocus, ?_⟩
  obtain ⟨t, ht, hp⟩ := stop_and_interrupt_mem d.threads_ctl tid hmem
  exact ⟨t, ht, by rw [hfocus]; exact hp,
    stop_and_interrupt_statuses d.threads_ctl tid hlive t ht⟩

/-- Witness for C2: a breakpoint hit on thread 2 of a two-thread registry
leaves both threads Stopped with the focus on thread 2. -/
theorem observable_stop_all_threads_stopped_witness :
    (∀ t ∈ debugee_two_threads_stopped.threads_ctl.threads, t.status = .Stopped) ∧
      debugee_two_threads_stopped.threads_ctl.in_focus = 2 ∧
      ∃ t ∈ debugee_two_threads_stopped.threads_ctl.threads,
        t.pid = debugee_two_threads_stopped.threads_ctl.in_focus ∧ t.status = .Stopped :=
  observable_stop_all_threads_stopped 0 debugee_two_threads debugee_two_threads_stopped
    (.Breakpoint 2) 2 (Or.inl rfl) (by decide) (by decide) (by decide)

/-- The cast `as i64` preserves every value already in the 64-bit signed
range. -/
theorem i64_wrap_eq_self (v : Int) (h1 : -(2 ^ 63) ≤ v) (h2 : v < 2 ^ 63) :
    i64_wrap v = v := by
  unfold i64_wrap
  omega

/-- C7: an integer scalar of any width whose value is representable in the
widened 64-bit type compares exactly with an integer literal; booleans
compare as booleans; a char scalar equals exactly the one-character string
holding it; floats (held at their exact values, `f32` widened exactly to
`f64`) compare exactly with float literals. -/
theorem scalar_literal_comparison :
    (∀ (s : SupportedScalar) (w n : Int),
      s.int_value = some w → -(2 ^ 63) ≤ w → w < 2 ^ 63 →
      (s.equal_with_literal (.Int n) = true ↔ n = w)) ∧
    (∀ b x : Bool, (SupportedScalar.Bool b).equal_with_literal (.Bool x) = true ↔ x = b) ∧
    (∀ (c : Char) (t : String),
      (SupportedScalar.Char c).equal_with_literal (.String t) = true ↔ t = String.mk [c]) ∧
    (∀ f x : Rat,
      ((SupportedScalar.F32 f).equal_with_literal (.Float x) = true ↔ x = f) ∧
      ((SupportedScalar.F64 f).equal_with_literal (.Float x) = true ↔ x = f)) := by
  refine ⟨?_, ?_, ?_, ?_⟩
  · intro s w n hs h1 h2
    cases s <;>
      simp only [SupportedScalar.int_value, Option.some.injEq, reduceCtorEq] at hs <;>
      subst hs <;>
      simp [SupportedScalar.equal_with_literal, Literal.equal_with_int,
        i64_wrap_eq_self _ h1 h2, beq_iff_eq]
  · intro b x
    simp [SupportedScalar.equal_with_literal, Literal.equal_with_bool, beq_iff_eq]
  · intro c t
    simp [SupportedScalar.equal_with_literal, Literal.equal_with_string, beq_iff_eq]
  · intro f x
    constructor <;>
      simp [SupportedScalar.equal_with_literal, Literal.equal_with_float, beq_iff_eq]

/-- Witness for C7: the u64 scalar 5 equals the integer literal 5, and the
char scalar a equals the string literal holding only a. -/
theorem scalar_literal_comparison_witness :
    (SupportedScalar.U64 5).equal_with_literal (.Int 5) = true ∧
      (SupportedScalar.Char 'a').equal_with_literal (.String "a") = true :=
  ⟨(scalar_literal_comparison.1 (.U64 5) 5 5 rfl (by norm_num) (by norm_num)).mpr rfl,
    (scalar_literal_comparison.2.2.1 'a' "a").mpr (by decide)⟩

/-- The greedy set loop of the source equals the greedy pass stated in the
words of the spec. -/
theorem matchSetLoop_eq_greedy :
    ∀ (items : List VariableIR) (lits : List LiteralOrWildcard),
      matchSetLoop items lits = greedy_pass items lits := by
  intro items
  induction items with
  | nil => intro lits; rw [matchSetLoop, greedy_pass]
  | cons item rest ih =>
    intro lits
    rw [matchSetLoop, greedy_pass, consume_one]
    cases h1 : lits.findIdx? (fun l =>
        match l with
        | .Literal lit => matchLiteral item lit
        | .Wildcard => false) with
    | some idx => simp [h1, ih]
    | none =>
      cases h2 : lits.findIdx? LiteralOrWildcard.isWildcard with
      | some idx => simp [h1, h2, ih]
      | none => simp [h1, h2]

/-- C8: a hash-set or tree-set specialization matches a positional array
literal exactly when the cardinalities agree and the greedy pass pairs
every item with an unconsumed concrete literal it matches or, failing
that, an unconsumed wildcard. -/
theorem set_match_iff_cardinality_and_greedy (idt : VariableIdentity)
    (tn : Option StringT) (items : List VariableIR) (orig : StructVariable)
    (lits : List LiteralOrWildcard) :
    (matchLiteral (.Specialized (.HashSet (some (.mk idt tn items)) orig)) (.Array lits) =
        true ↔ lits.length = items.length ∧ greedy_pass items lits = true) ∧
    (matchLiteral (.Specialized (.BTreeSet (some (.mk idt tn items)) orig)) (.Array lits) =
        true ↔ lits.length = items.length ∧ greedy_pass items lits = true) := by
  constructor <;>
    · rw [matchLiteral]
      simp [matchSetLoop_eq_greedy, Bool.and_eq_true, beq_iff_eq]

/-- The UUID arm of `match_literal` compares the string literal with the
canonical rendering of the sixteen bytes. -/
theorem matchLiteral_uuid (bytes : List Nat) (orig : StructVariable) (s : String) :
    matchLiteral (.Specialized (.Uuid (some bytes) orig)) (.String s) =
      (s == uuid_render bytes) := by
  rw [matchLiteral]
  simp [Literal.equal_with_string]

/-- C9: a UUID specialization holding sixteen bytes matches a string
literal exactly when the string equals the canonical dashed rendering of
the bytes; in particular the bytes of scenario S6 match their canonical
rendering and not the string differing in the last hexadecimal digit. -/
theorem uuid_match_canonical_rendering :
    (∀ (bytes : List Nat) (orig : StructVariable) (s : String),
      matchLiteral (.Specialized (.Uuid (some bytes) orig)) (.String s) = true ↔
        s = uuid_render bytes) ∧
    matchLiteral (.Specialized (.Uuid (some uuid_bytes_s6) empty_original))
        (.String "d0606629-786a-44be-9d49-b7020f3eb05a") = true ∧
    matchLiteral (.Specialized (.Uuid (some uuid_bytes_s6) empty_original))
        (.String "d0606629-786a-44be-9d49-b7020f3eb05b") = false := by
  refine ⟨?_, ?_, ?_⟩
  · intro bytes orig s
    rw [matchLiteral_uuid]
    simp [beq_iff_eq]
  · rw [matchLiteral_uuid]
    decide
  · rw [matchLiteral_uuid]
    decide

/-- Pointwise description of planting a list of transient breakpoints:
each listed relocated address gets a fresh enabled record, the rest of the
table is untouched. -/
theorem set_all_apply (pid : Nat) (addrs : List RelocatedAddress) (bps : BreakpointTable)
    (k : PCValue) :
    set_all bps pid addrs k =
      if ∃ a ∈ addrs, k = PCValue.Relocated a then some ((Breakpoint.new k pid).enable)
      else bps k := by
  induction addrs generalizing bps with
  | nil => simp [set_all]
  | cons a rest ih =>
    have hstep : set_all bps pid (a :: rest) =
        set_all (set_breakpoint_table bps pid true (.Relocated a)) pid rest := rfl
    rw [hstep, ih]
    by_cases h1 : ∃ x ∈ rest, k = PCValue.Relocated x
    · obtain ⟨x, hx, hk⟩ := h1
      rw [if_pos ⟨x, hx, hk⟩, if_pos ⟨x, List.mem_cons_of_mem a hx, hk⟩]
    · rw [if_neg h1]
      by_cases h2 : k = PCValue.Relocated a
      · rw [if_pos ⟨a, List.mem_cons_self a rest, h2⟩]
        simp [set_breakpoint_table, h2]
      · rw [if_neg (by
          rintro ⟨x, hx, hk⟩
          rcases List.mem_cons.mp hx with rfl | hxr
          · exact h2 hk
          · exact h1 ⟨x, hxr, hk⟩)]
        simp [set_breakpoint_table, h2]

/-- Pointwise description of removing a list of transient breakpoints. -/
theorem remove_all_apply (addrs : List RelocatedAddress) (bps : BreakpointTable)
    (k : PCValue) :
    remove_all bps addrs k =
      if ∃ a ∈ addrs, k = PCValue.Relocated a then none else bps k := by
  induction addrs generalizing bps with
  | nil => simp [remove_all]
  | cons a rest ih =>
    have hstep : remove_all bps (a :: rest) =
        remove_all (remove_breakpoint_table bps (.Relocated a)) rest := rfl
    rw [hstep, ih]
    by_cases h1 : ∃ x ∈ rest, k = PCValue.Relocated x
    · obtain ⟨x, hx, hk⟩ := h1
      rw [if_pos ⟨x, hx, hk⟩, if_pos ⟨x, List.mem_cons_of_mem a hx, hk⟩]
    · rw [if_neg h1]
      by_cases h2 : k = PCValue.Relocated a
      · rw [if_pos ⟨a, List.mem_cons_self a rest, h2⟩]
        simp [remove_breakpoint_table, h2]
      · rw [if_neg (by
          rintro ⟨x, hx, hk⟩
          rcases List.mem_cons.mp hx with rfl | hxr
          · exact h2 hk
          · exact h1 ⟨x, hxr, hk⟩)]
        simp [remove_breakpoint_table, h2]

/-- Once the debugee has started, the event loop can no longer see a
DebugeeStart event, and then it leaves the breakpoint table unchanged. -/
theorem continue_execution_no_start (offset : Nat) :
    ∀ (events : List DebugeeEvent) (bps : BreakpointTable),
      (∀ e ∈ events, e ≠ .DebugeeStart) →
      continue_execution_table offset events bps = bps := by
  intro events
  induction events with
  | nil => intro bps _; rfl
  | cons e rest ih =>
    intro bps hev
    cases e with
    | DebugeeStart => exact absurd rfl (hev _ (List.mem_cons_self _ _))
    | AtEntryPoint tid =>
      exact ih bps (fun x hx => hev x (List.mem_cons_of_mem _ hx))
    | DebugeeExit c => rfl
    | TrapTrace => rfl
    | NoSuchProcess t => rfl
    | Breakpoint t pc => rfl
    | OsSignal i t => rfl

/-- Every transient statement breakpoint that step-over plants sits at an
address that held no breakpoint before the operation. -/
theorem step_over_plant_not_present (bps : BreakpointTable) (offset : Nat)
    (lines : List (GlobalAddress × Bool)) (cur : GlobalAddress) :
    ∀ a ∈ step_over_plant bps offset lines cur, bps (PCValue.Relocated a) = none := by
  intro a ha
  simp only [step_over_plant, List.mem_map, List.mem_filter] at ha
  obtain ⟨l, ⟨hl, hpred⟩, rfl⟩ := ha
  simp only [Bool.and_eq_true, Option.isNone_iff_eq_none] at hpred
  exact hpred.2

/-- C3: a successful step-over leaves the breakpoint table exactly as it
was: every transient breakpoint it planted (eligible statement lines plus
the return address when known and absent) is removed again, and no
pre-existing record is touched. -/
theorem step_over_preserves_breakpoints (bps : BreakpointTable) (offset pid : Nat)
    (lines : List (GlobalAddress × Bool)) (cur : GlobalAddress)
    (ret_addr : Option RelocatedAddress) (events : List DebugeeEvent)
    (hev : ∀ e ∈ events, e ≠ .DebugeeStart) :
    ∀ k, step_over_table bps offset pid lines cur ret_addr events k = bps k := by
  intro k
  unfold step_over_table
  have hplant_none : ∀ a ∈ step_over_plant bps offset lines cur,
      bps (PCValue.Relocated a) = none :=
    step_over_plant_not_present bps offset lines cur
  cases ret_addr with
  | none =>
    simp only []
    rw [continue_execution_no_start offset events _ hev, remove_all_apply, set_all_apply]
    by_cases hk : ∃ a ∈ step_over_plant bps offset lines cur, k = PCValue.Relocated a
    · obtain ⟨a, ha, rfl⟩ := hk
      rw [if_pos ⟨a, ha, rfl⟩, (hplant_none a ha)]
    · rw [if_neg hk, if_neg hk]
  | some r =>
    simp only []
    by_cases hr :
        (set_all bps pid (step_over_plant bps offset lines cur) (PCValue.Relocated r)).isNone =
          true
    · rw [if_pos hr]
      dsimp only
      have hrnone : bps (PCValue.Relocated r) = none := by
        rw [set_all_apply] at hr
        by_cases hrp : ∃ a ∈ step_over_plant bps offset lines cur,
            PCValue.Relocated r = PCValue.Relocated a
        · rw [if_pos hrp] at hr
          simp at hr
        · rw [if_neg hrp] at hr
          exact Option.isNone_iff_eq_none.mp hr
      rw [continue_execution_no_start offset events _ hev, remove_all_apply]
      by_cases hk : ∃ a ∈ step_over_plant bps offset lines cur ++ [r],
          k = PCValue.Relocated a
      · rw [if_pos hk]
        obtain ⟨a, ha, rfl⟩ := hk
        rcases List.mem_append.mp ha with hap | har
        · rw [hplant_none a hap]
        · rw [List.mem_singleton.mp har, hrnone]
      · rw [if_neg hk]
        simp only [set_breakpoint_table]
        have hkr : ¬ k = PCValue.Relocated r := by
          intro h
          exact hk ⟨r, List.mem_append.mpr (Or.inr (List.mem_singleton.mpr rfl)), h⟩
        rw [if_neg hkr, set_all_apply]
        rw [if_neg (by
          rintro ⟨a, ha, rfl⟩
          exact hk ⟨a, List.mem_append.mpr (Or.inl ha), rfl⟩)]
    · rw [if_neg hr]
      dsimp only
      rw [continue_execution_no_start offset events _ hev, remove_all_apply, set_all_apply]
      by_cases hk : ∃ a ∈ step_over_plant bps offset lines cur, k = PCValue.Relocated a
      · obtain ⟨a, ha, rfl⟩ := hk
        rw [if_pos ⟨a, ha, rfl⟩, (hplant_none a ha)]
      · rw [if_neg hk, if_neg hk]

/-- Witness for C3: a concrete step-over with one statement line, a fresh
return address and a breakpoint-hit event restores the (empty) table at
the planted key. -/
theorem step_over_preserves_breakpoints_witness :
    (∀ e ∈ ([.Breakpoint 1 ⟨5⟩] : List DebugeeEvent), e ≠ .DebugeeStart) ∧
      step_over_table (fun _ => none) 0 7 [(⟨4⟩, true)] ⟨0⟩ (some ⟨200⟩)
          [.Breakpoint 1 ⟨5⟩] (.Relocated ⟨4⟩) =
        (fun _ => none : BreakpointTable) (.Relocated ⟨4⟩) :=
  ⟨by decide,
    step_over_preserves_breakpoints (fun _ => none) 0 7 [(⟨4⟩, true)] ⟨0⟩ (some ⟨200⟩)
      [.Breakpoint 1 ⟨5⟩] (by decide) (.Relocated ⟨4⟩)⟩

end BugStalker
